import Mathlib

/-!
Formal model of the Duck OS core engines (window/app kernel and virtual
file system), shallowly embedded from the TypeScript sources:
  * `src/core/window-manager.ts` (pure placement and clamping helpers),
  * `src/core/app-registry.ts` (module-level app catalogue),
  * `src/core/os-store.ts` and its later revision `src/unnamed/part_000`
    (the kernel store; the revision adds a monotonic `nextWindowSeq`
    component to window ids and clamps positions against the viewport),
  * `src/core/vfs.ts` (the hierarchical file store).

Modelling conventions:
  * JavaScript numbers used for coordinates are modelled as rationals
    (all arithmetic performed on them by this code - addition,
    subtraction, halving, `min`/`max` - is exact in binary floating
    point for the magnitudes involved, so `Rat` is a faithful carrier);
    counters and timestamps are natural numbers.
  * `Date.now()` is an input: operations that read the clock take an
    extra `now : Nat` argument, universally quantified in the theorems.
  * The browser global `window` (viewport) is an `Option Viewport`
    argument: `none` models `typeof window === "undefined"`.
  * The asynchronous IndexedDB record store of the VFS is modelled as an
    explicit list of records threaded through every operation; `await`
    boundaries disappear because each VFS call runs to completion.
  * Unbounded `while` walks over parent pointers are given explicit
    fuel `storeSize + 1`, a bound that the source loops never exceed on
    acyclic stores (each step strictly descends a finite ancestor
    chain); the cycle-sweep recursion is likewise fuelled.
-/

/- ════════════════════════════════════════════════════════════════
   Window/app kernel: data model
   (src/core/types.ts shapes, as used by the store)
   ════════════════════════════════════════════════════════════════ -/

structure WindowPosition where
  x : ℚ
  y : ℚ
deriving DecidableEq, Repr

structure WindowSize where
  width : ℚ
  height : ℚ
deriving DecidableEq, Repr

structure Viewport where
  width : ℚ
  height : ℚ
deriving DecidableEq, Repr

structure WindowInstance where
  id : String
  appId : String
  position : WindowPosition
  size : WindowSize
  zIndex : Nat
  isMinimized : Bool
  isMaximized : Bool
deriving DecidableEq, Repr

structure AppDefinition where
  id : String
  name : String
  defaultSize : WindowSize
deriving DecidableEq, Repr

/- ════════════════════════════════════════════════════════════════
   src/core/window-manager.ts
   ════════════════════════════════════════════════════════════════ -/

def BASE_X : ℚ := 120

def BASE_Y : ℚ := 80

def CASCADE : ℚ := 28

/-- Embeds `getSpawnPosition` of `src/core/window-manager.ts`. -/
def getSpawnPosition (openWindows : List WindowInstance) : WindowPosition :=
  let count := openWindows.length
  { x := BASE_X + CASCADE * ((count % 10 : Nat) : ℚ)
  , y := BASE_Y + CASCADE * ((count % 10 : Nat) : ℚ) }

/-- Embeds `clampPosition` of `src/core/window-manager.ts` (the revision
whose body clamps the entire window rectangle into the viewport, lines
31-42 of the concatenated file; the spec adopts this revision as the
authoritative clamping contract). -/
def clampPosition (pos : WindowPosition) (size : WindowSize) (viewport : Viewport) :
    WindowPosition :=
  { x := max 0 (min pos.x (viewport.width - size.width))
  , y := max 0 (min pos.y (viewport.height - size.height)) }

/-- Embeds the other revision of `clampPosition` (lines 73-83 of the
concatenated `src/core/window-manager.ts`), which only keeps 60px of the
title bar visible; recorded here for completeness, not adopted by the
spec. -/
def clampPositionTitleBar (pos : WindowPosition) (size : WindowSize) (viewport : Viewport) :
    WindowPosition :=
  let TITLE_BAR : ℚ := 60
  { x := max (-size.width + TITLE_BAR) (min pos.x (viewport.width - TITLE_BAR))
  , y := max 0 (min pos.y (viewport.height - TITLE_BAR)) }

/- ════════════════════════════════════════════════════════════════
   src/core/app-registry.ts: module-level catalogue
   (insertion-ordered map, modelled as a list keyed by `id`)
   ════════════════════════════════════════════════════════════════ -/

abbrev Registry := List AppDefinition

/-- Embeds the module-level `registerApp` of `src/core/app-registry.ts`:
no-op when the id is already present. -/
def registryRegisterApp (reg : Registry) (app : AppDefinition) : Registry :=
  if (List.any reg fun a => a.id = app.id) then reg else reg ++ [app]

/-- Embeds `getAppById` of `src/core/app-registry.ts`. -/
def getAppById (reg : Registry) (id : String) : Option AppDefinition :=
  List.find? (fun a => a.id = id) reg

/- ════════════════════════════════════════════════════════════════
   Decimal rendering of numbers for window ids.
   JavaScript template interpolation prints a Nat in decimal; we embed
   this with a structurally recursive (fuelled) digit printer so that
   concrete ids evaluate by kernel reduction.
   ════════════════════════════════════════════════════════════════ -/

/-- Decimal digit list of `n`, with explicit fuel (any fuel above the
number of digits, in particular `n + 1`, yields the exact decimal
representation, most significant digit first). -/
def natDigitsAux : Nat → Nat → List Char
  | 0, _ => []
  | fuel + 1, n =>
      if n < 10 then [Nat.digitChar n]
      else natDigitsAux fuel (n / 10) ++ [Nat.digitChar (n % 10)]

/-- Decimal string of a natural number, as JavaScript prints it. -/
def natRepr (n : Nat) : String := String.mk (natDigitsAux (n + 1) n)

/-- Embeds the template-literal window id of the `openApp` revision in
`src/unnamed/part_000`: `${appId}-${Date.now()}-${nextSeq}`. -/
def mkWindowId (appId : String) (now seq : Nat) : String :=
  appId ++ "-" ++ natRepr now ++ "-" ++ natRepr seq

/- ════════════════════════════════════════════════════════════════
   Kernel state and actions
   (src/unnamed/part_000, the os-store revision with `nextWindowSeq`;
   src/core/os-store.ts differs only by lacking the seq component in
   ids, by not centering/clamping spawn positions, and by not clamping
   in updateWindowPosition)
   ════════════════════════════════════════════════════════════════ -/

structure OSState where
  isBooted : Bool
  openWindows : List WindowInstance
  focusedWindowId : Option String
  registeredApps : List AppDefinition
  zIndexCounter : Nat
  nextWindowSeq : Nat
deriving DecidableEq, Repr

def initialOSState : OSState :=
  { isBooted := false
  , openWindows := []
  , focusedWindowId := none
  , registeredApps := []
  , zIndexCounter := 1
  , nextWindowSeq := 0 }

/-- Embeds the store action `boot`. -/
def boot (s : OSState) : OSState := { s with isBooted := true }

/-- Embeds the store action `registerApp` (the registry bridge kept in
Zustand state, distinct from the module-level catalogue). -/
def storeRegisterApp (s : OSState) (app : AppDefinition) : OSState :=
  if (List.any s.registeredApps fun a => a.id = app.id) then s
  else { s with registeredApps := s.registeredApps ++ [app] }

/-- Embeds `openApp` of `src/unnamed/part_000`.  The app definition is
looked up in the module-level registry (`getAppById`), not in the
store's own `registeredApps` list.  `now` is the wall clock reading and
`viewport` the browser window dimensions (`none` when `window` is
undefined). -/
def openApp (reg : Registry) (s : OSState) (appId : String) (now : Nat)
    (viewport : Option Viewport) : OSState :=
  match getAppById reg appId with
  | none => s
  | some app =>
    let nextZ := s.zIndexCounter + 1
    let nextSeq := s.nextWindowSeq + 1
    let spawn :=
      match viewport with
      | none => getSpawnPosition s.openWindows
      | some vp =>
          let offset : ℚ := CASCADE * ((s.openWindows.length % 10 : Nat) : ℚ)
          clampPosition
            { x := vp.width / 2 - app.defaultSize.width / 2 + offset
            , y := vp.height / 2 - app.defaultSize.height / 2 + offset }
            app.defaultSize
            { width := vp.width, height := vp.height }
    let inst : WindowInstance :=
      { id := mkWindowId appId now nextSeq
      , appId := appId
      , position := spawn
      , size := app.defaultSize
      , zIndex := nextZ
      , isMinimized := false
      , isMaximized := false }
    { s with openWindows := s.openWindows ++ [inst]
           , focusedWindowId := some inst.id
           , zIndexCounter := nextZ
           , nextWindowSeq := nextSeq }

/-- Embeds the store action `closeWindow`. -/
def closeWindow (s : OSState) (windowId : String) : OSState :=
  { s with openWindows := s.openWindows.filter fun w => ¬ (w.id = windowId)
         , focusedWindowId :=
             if s.focusedWindowId = some windowId then none else s.focusedWindowId }

/-- Embeds the store action `focusWindow`.  Note that the source sets
`focusedWindowId` to the given id and advances `zIndexCounter`
unconditionally, even when no open window carries that id. -/
def focusWindow (s : OSState) (windowId : String) : OSState :=
  let nextZ := s.zIndexCounter + 1
  { s with openWindows :=
             s.openWindows.map fun w =>
               if w.id = windowId then { w with zIndex := nextZ, isMinimized := false } else w
         , focusedWindowId := some windowId
         , zIndexCounter := nextZ }

/-- Embeds the store action `minimizeWindow`. -/
def minimizeWindow (s : OSState) (windowId : String) : OSState :=
  { s with openWindows :=
             s.openWindows.map fun w =>
               if w.id = windowId then { w with isMinimized := true } else w
         , focusedWindowId :=
             if s.focusedWindowId = some windowId then none else s.focusedWindowId }

/-- Embeds the store action `toggleMaximizeWindow`. -/
def toggleMaximizeWindow (s : OSState) (windowId : String) : OSState :=
  { s with openWindows :=
             s.openWindows.map fun w =>
               if w.id = windowId then { w with isMaximized := ¬ w.isMaximized } else w }

/-- Embeds the store action `updateWindowPosition` of
`src/unnamed/part_000`: when the browser viewport is available and the
window exists, the new position is clamped against it first. -/
def updateWindowPosition (s : OSState) (windowId : String) (position : WindowPosition)
    (viewport : Option Viewport) : OSState :=
  let pos :=
    match viewport with
    | none => position
    | some vp =>
        match s.openWindows.find? (fun w => w.id = windowId) with
        | some w => clampPosition position w.size { width := vp.width, height := vp.height }
        | none => position
  { s with openWindows :=
             s.openWindows.map fun w =>
               if w.id = windowId then { w with position := pos } else w }

/-- Embeds the store action `updateWindowSize` (no clamping in the
source). -/
def updateWindowSize (s : OSState) (windowId : String) (size : WindowSize) : OSState :=
  { s with openWindows :=
             s.openWindows.map fun w =>
               if w.id = windowId then { w with size := size } else w }

/-- Embeds the store action `clearFocus`. -/
def clearFocus (s : OSState) : OSState := { s with focusedWindowId := none }

/- ════════════════════════════════════════════════════════════════
   Window id uniqueness machinery: the sequence number is recoverable
   from the id string (it is the digit run after the last dash), so
   distinct sequence numbers force distinct ids.
   ════════════════════════════════════════════════════════════════ -/

def charVal (c : Char) : Nat := c.toNat - ('0' : Char).toNat

def decDigits (l : List Char) : Nat := l.foldl (fun a c => 10 * a + charVal c) 0

/-- Takes the run of characters after the last dash. -/
def lastSeg (l : List Char) : List Char :=
  (l.reverse.takeWhile (fun c => ¬ (c = '-'))).reverse

/-- The window sequence number recovered from an id string. -/
def seqOf (id : String) : Nat := decDigits (lastSeg id.data)

/- ════════════════════════════════════════════════════════════════
   Kernel invariants
   ════════════════════════════════════════════════════════════════ -/

/-- Every open window id carries a sequence component bounded by the
state's `nextWindowSeq` counter. -/
def SeqBound (s : OSState) : Prop := ∀ w ∈ s.openWindows, seqOf w.id ≤ s.nextWindowSeq

/-- All open window ids are pairwise distinct. -/
def IdsNodup (s : OSState) : Prop := (s.openWindows.map fun w => w.id).Nodup

/-- The focused id, when set, names a currently open window. -/
def FocusValid (s : OSState) : Prop :=
  ∀ fid, s.focusedWindowId = some fid → ∃ w ∈ s.openWindows, w.id = fid

/-- The z-index counter dominates every open window's z-index. -/
def ZBound (s : OSState) : Prop := ∀ w ∈ s.openWindows, w.zIndex ≤ s.zIndexCounter

/-- The inductive invariant carried through every kernel transition. -/
def FullInv (s : OSState) : Prop := IdsNodup s ∧ SeqBound s ∧ FocusValid s ∧ ZBound s

/-- Windows currently holding focus (those whose id equals
`focusedWindowId`). -/
def focusedWindows (s : OSState) : List WindowInstance :=
  s.openWindows.filter fun w => s.focusedWindowId = some w.id

/- ════════════════════════════════════════════════════════════════
   Reachability: states obtainable from the initial state by kernel
   actions.  `ReachableOS` places no restriction on arguments;
   `ReachableGoodOS` restricts `focusWindow` to ids of open windows
   (the discipline the UI layer follows, clicking only real windows).
   ════════════════════════════════════════════════════════════════ -/

inductive ReachableOS (reg : Registry) : OSState → Prop
  | init : ReachableOS reg initialOSState
  | step_boot (s : OSState) : ReachableOS reg s → ReachableOS reg (boot s)
  | step_register (s : OSState) (app : AppDefinition) :
      ReachableOS reg s → ReachableOS reg (storeRegisterApp s app)
  | step_open (s : OSState) (appId : String) (now : Nat) (vp : Option Viewport) :
      ReachableOS reg s → ReachableOS reg (openApp reg s appId now vp)
  | step_close (s : OSState) (wid : String) :
      ReachableOS reg s → ReachableOS reg (closeWindow s wid)
  | step_focus (s : OSState) (wid : String) :
      ReachableOS reg s → ReachableOS reg (focusWindow s wid)
  | step_min (s : OSState) (wid : String) :
      ReachableOS reg s → ReachableOS reg (minimizeWindow s wid)
  | step_max (s : OSState) (wid : String) :
      ReachableOS reg s → ReachableOS reg (toggleMaximizeWindow s wid)
  | step_pos (s : OSState) (wid : String) (pos : WindowPosition) (vp : Option Viewport) :
      ReachableOS reg s → ReachableOS reg (updateWindowPosition s wid pos vp)
  | step_size (s : OSState) (wid : String) (sz : WindowSize) :
      ReachableOS reg s → ReachableOS reg (updateWindowSize s wid sz)
  | step_clear (s : OSState) : ReachableOS reg s → ReachableOS reg (clearFocus s)

inductive ReachableGoodOS (reg : Registry) : OSState → Prop
  | init : ReachableGoodOS reg initialOSState
  | step_boot (s : OSState) : ReachableGoodOS reg s → ReachableGoodOS reg (boot s)
  | step_register (s : OSState) (app : AppDefinition) :
      ReachableGoodOS reg s → ReachableGoodOS reg (storeRegisterApp s app)
  | step_open (s : OSState) (appId : String) (now : Nat) (vp : Option Viewport) :
      ReachableGoodOS reg s → ReachableGoodOS reg (openApp reg s appId now vp)
  | step_close (s : OSState) (wid : String) :
      ReachableGoodOS reg s → ReachableGoodOS reg (closeWindow s wid)
  | step_focus (s : OSState) (wid : String) :
      ReachableGoodOS reg s → (∃ w ∈ s.openWindows, w.id = wid) →
      ReachableGoodOS reg (focusWindow s wid)
  | step_min (s : OSState) (wid : String) :
      ReachableGoodOS reg s → ReachableGoodOS reg (minimizeWindow s wid)
  | step_max (s : OSState) (wid : String) :
      ReachableGoodOS reg s → ReachableGoodOS reg (toggleMaximizeWindow s wid)
  | step_pos (s : OSState) (wid : String) (pos : WindowPosition) (vp : Option Viewport) :
      ReachableGoodOS reg s → ReachableGoodOS reg (updateWindowPosition s wid pos vp)
  | step_size (s : OSState) (wid : String) (sz : WindowSize) :
      ReachableGoodOS reg s → ReachableGoodOS reg (updateWindowSize s wid sz)
  | step_clear (s : OSState) : ReachableGoodOS reg s → ReachableGoodOS reg (clearFocus s)

/-- The kernel invariant named by the spec: at most one focused window,
focus names an open window, and the z-index counter dominates every
window's z-index. -/
def KernelInv (s : OSState) : Prop :=
  (focusedWindows s).length ≤ 1 ∧ FocusValid s ∧ ZBound s

/- ════════════════════════════════════════════════════════════════
   Virtual file system (src/core/vfs.ts): data model and storage
   substrate.  The IndexedDB object store keyed by `id` with a
   `parentId` index is modelled as a list of records: `put` upserts by
   id, `get` finds by id, the index query filters by parentId.
   ════════════════════════════════════════════════════════════════ -/

inductive NodeType
  | file
  | folder
deriving DecidableEq, Repr

structure FileNode where
  id : String
  name : String
  type : NodeType
  parentId : Option String
  content : Option String
  createdAt : Nat
  updatedAt : Nat
deriving DecidableEq, Repr

abbrev Store := List FileNode

def ROOT_ID : String := "root"

/-- Embeds `getById` (IndexedDB `get` on the primary key). -/
def getById (st : Store) (id : String) : Option FileNode :=
  st.find? fun n => n.id = id

/-- Embeds `putNode` (IndexedDB `put`, an upsert keyed by `id`). -/
def putNode (st : Store) (node : FileNode) : Store :=
  if st.any (fun n => n.id = node.id) then
    st.map fun n => if n.id = node.id then node else n
  else st ++ [node]

/-- Embeds `getChildrenOf` (IndexedDB index query on `parentId`). -/
def getChildrenOf (st : Store) (parentId : String) : List FileNode :=
  st.filter fun n => n.parentId = some parentId

/-- Embeds the VFS error classes of the spec (section 7): each thrown
`Error` is tagged with its category, keeping its message. -/
inductive VfsError
  | notFound (msg : String)
  | typeMismatch (msg : String)
  | alreadyExists (msg : String)
  | invalidOperation (msg : String)
deriving DecidableEq, Repr

/- ── Path model ──────────────────────────────────────────────── -/

/-- Embeds the regex replace of repeated slashes in `normalisePath`
(`p.replace(/\x2f+/g, "/")`), character by character; the flag records
whether the previously kept character was a slash. -/
def collapseAux : Bool → List Char → List Char
  | _, [] => []
  | prevSlash, c :: rest =>
      if c = '/' then
        if prevSlash then collapseAux true rest
        else '/' :: collapseAux true rest
      else c :: collapseAux false rest

/-- Embeds `normalisePath` of `src/core/vfs.ts`: collapse repeated
slashes, ensure a leading slash, strip a trailing slash unless the path
is exactly the root. -/
def normalisePath (p : String) : String :=
  let out := collapseAux false p.data
  let out2 := if out.head? = some '/' then out else '/' :: out
  String.mk (if 1 < out2.length ∧ out2.getLast? = some '/' then out2.dropLast else out2)

/-- Embeds JavaScript `String.prototype.split("/")` on the character
list (segments between slashes, empty segments included). -/
def splitSlashAux : List Char → List Char → List String
  | [], acc => [String.mk acc.reverse]
  | c :: rest, acc =>
      if c = '/' then String.mk acc.reverse :: splitSlashAux rest []
      else splitSlashAux rest (c :: acc)

/-- Embeds `splitPath` of `src/core/vfs.ts`: normalise, split on
slashes, drop empty segments (`filter(Boolean)`). -/
def splitPath (p : String) : List String :=
  (splitSlashAux (normalisePath p).data []).filter fun s => ¬ (s = "")

/-- Embeds the segment walk inside `getNodeByPath`: from the current
node id, look up the child whose name matches each successive segment. -/
def walkSegs (st : Store) : String → List String → Option String
  | cur, [] => some cur
  | cur, seg :: rest =>
      match (getChildrenOf st cur).find? (fun c => c.name = seg) with
      | some m => walkSegs st m.id rest
      | none => none

/-- Embeds `getNodeByPath` of `src/core/vfs.ts`. -/
def getNodeByPath (st : Store) (path : String) : Option FileNode :=
  let segments := splitPath path
  if segments.isEmpty then getById st ROOT_ID
  else
    match walkSegs st ROOT_ID segments with
    | some lastId => getById st lastId
    | none => none

/-- Embeds `resolveParent` of `src/core/vfs.ts`: split off the final
segment as the child name, resolve the remaining prefix, require it to
be a folder. -/
def resolveParent (st : Store) (path : String) : Except VfsError (FileNode × String) :=
  match (splitPath path).getLast? with
  | none => .error (.invalidOperation "Cannot resolve parent of root")
  | some childName =>
      let parentPath := "/" ++ String.intercalate "/" (splitPath path).dropLast
      match getNodeByPath st parentPath with
      | none => .error (.notFound ("Parent path not found: " ++ parentPath))
      | some parent =>
          if parent.type = NodeType.folder then .ok (parent, childName)
          else .error (.typeMismatch ("Not a folder: " ++ parentPath))

/- ── Public operations used by the claims ────────────────────── -/

/-- Embeds `createFile` of `src/core/vfs.ts`.  `now` is the clock
reading, `newId` the id produced by `uid()`. -/
def createFile (st : Store) (path : String) (content : String) (now : Nat)
    (newId : String) : Except VfsError FileNode × Store :=
  match resolveParent st path with
  | .error e => (.error e, st)
  | .ok (parent, name) =>
      let siblings := getChildrenOf st parent.id
      if siblings.any (fun s => s.name = name) then
        (.error (.alreadyExists ("Already exists: " ++ path)), st)
      else
        let node : FileNode :=
          { id := newId, name := name, type := NodeType.file, parentId := some parent.id
          , content := some content, createdAt := now, updatedAt := now }
        (.ok node, putNode st node)

/-- Embeds `readFile` of `src/core/vfs.ts` (read-only, so the store is
not threaded through). -/
def readFile (st : Store) (path : String) : Except VfsError String :=
  match getNodeByPath st path with
  | none => .error (.notFound ("Not found: " ++ path))
  | some node =>
      if node.type = NodeType.file then .ok (node.content.getD "")
      else .error (.typeMismatch ("Not a file: " ++ path))

/-- Embeds `writeFile` of `src/core/vfs.ts`: overwrite an existing
file's content, or transparently create the file when the path does not
resolve. -/
def writeFile (st : Store) (path : String) (content : String) (now : Nat)
    (newId : String) : Except VfsError FileNode × Store :=
  match getNodeByPath st path with
  | some node =>
      if node.type = NodeType.file then
        let node2 := { node with content := some content, updatedAt := now }
        (.ok node2, putNode st node2)
      else (.error (.typeMismatch ("Not a file: " ++ path)), st)
  | none => createFile st path content now newId

/-- Embeds the ancestor walk inside `moveNode` (`let cur = newParent;
while (cur) ...`), returning `true` when the moved node's id appears on
the destination parent's ancestor chain.  The source loop is unbounded;
`fuel` bounds it explicitly and `moveNode` passes `storeSize + 1`,
which the walk never exhausts on acyclic stores. -/
def ancestorGuard (st : Store) (targetId : String) : Nat → Option FileNode → Bool
  | _, none => false
  | 0, some _ => false
  | fuel + 1, some cur =>
      if cur.id = targetId then true
      else
        match cur.parentId with
        | some pid => ancestorGuard st targetId fuel (getById st pid)
        | none => false

/-- Embeds `moveNode` of `src/core/vfs.ts`. -/
def moveNode (st : Store) (sourcePath destinationPath : String) (now : Nat) :
    Except VfsError FileNode × Store :=
  match getNodeByPath st sourcePath with
  | none => (.error (.notFound ("Not found: " ++ sourcePath)), st)
  | some node =>
      if node.id = ROOT_ID then (.error (.invalidOperation "Cannot move root"), st)
      else
        match resolveParent st destinationPath with
        | .error e => (.error e, st)
        | .ok (newParent, newName) =>
            if node.type = NodeType.folder
                ∧ ancestorGuard st node.id (st.length + 1) (some newParent) = true then
              (.error (.invalidOperation
                "Cannot move a folder into itself or its own descendant"), st)
            else
              let siblings := getChildrenOf st newParent.id
              if siblings.any (fun s => s.name = newName ∧ ¬ (s.id = node.id)) then
                (.error (.alreadyExists ("Already exists: " ++ destinationPath)), st)
              else
                let updated := { node with
                                 parentId := some newParent.id
                                 name := newName
                                 updatedAt := now }
                (.ok updated, putNode st updated)

/- ── Cycle sweep ─────────────────────────────────────────────── -/

/-- Embeds the `childrenMap` built at the start of
`detectAndFixCycles`: node ids grouped by (truthy) parentId, in store
order; looked up as a total function defaulting to the empty list. -/
def childrenIds (st : Store) (id : String) : List String :=
  if id = "" then []
  else (st.filter fun n => n.parentId = some id).map fun n => n.id

/-- Embeds the recursive `dfs` of `detectAndFixCycles`: descend the
child edges of the snapshot `st0`, carrying the ancestor set of the
current path; on meeting an ancestor again, reparent that node to root
in the current store and stop descending.  `fuel` bounds the recursion
depth (the source recursion is bounded by the longest simple child
path, at most `st0.length + 1`). -/
def dfsFix (st0 : Store) : Nat → Store → List String → String → Store
  | 0, st, _, _ => st
  | fuel + 1, st, ancestors, id =>
      if id ∈ ancestors then
        match getById st id with
        | some node => putNode st { node with parentId := some ROOT_ID }
        | none => st
      else
        (childrenIds st0 id).foldl (fun acc cid => dfsFix st0 fuel acc (id :: ancestors) cid) st

/-- Embeds `detectAndFixCycles` of `src/core/vfs.ts`: depth-first sweep
from the root. -/
def detectAndFixCycles (st : Store) : Store :=
  dfsFix st (st.length + 1) st [] ROOT_ID

/-- Embeds `initFileSystem` of `src/core/vfs.ts`.  `now` is the clock
reading; `homeId notesId docsId sysId settingsId` are the ids produced
by the five `uid()` calls of the seeding branch. -/
def initFileSystem (st : Store) (now : Nat)
    (homeId notesId docsId sysId settingsId : String) : Store :=
  match getById st ROOT_ID with
  | some _ => detectAndFixCycles st
  | none =>
      let mk := fun (id name : String) (type : NodeType) (parentId : Option String)
          (content : Option String) =>
        ({ id := id, name := name, type := type, parentId := parentId
         , content := content, createdAt := now, updatedAt := now } : FileNode)
      let nodes : List FileNode :=
        [ mk ROOT_ID "/" NodeType.folder none none
        , mk homeId "home" NodeType.folder (some ROOT_ID) none
        , mk notesId "notes" NodeType.folder (some homeId) none
        , mk docsId "documents" NodeType.folder (some homeId) none
        , mk sysId "system" NodeType.folder (some ROOT_ID) none
        , mk settingsId "settings.json" NodeType.file (some sysId)
            (some "\x7b\x22theme\x22:\x22midnight\x22,\x22locking\x22:false\x7d") ]
      nodes.foldl (fun acc n => putNode acc n) st

/- ════════════════════════════════════════════════════════════════
   VFS proof machinery
   ════════════════════════════════════════════════════════════════ -/

/-- Chain of parent links of length `k` from `x` up to `y` (so `y` is
`x` itself for `k = 0`, or an ancestor of `x`, equivalently `x` is a
descendant of `y`). -/
inductive IsAncestorN (st : Store) : FileNode → FileNode → Nat → Prop
  | refl (x : FileNode) : IsAncestorN st x x 0
  | step (x p y : FileNode) (k : Nat) (pid : String) :
      x.parentId = some pid → getById st pid = some p → IsAncestorN st p y k →
      IsAncestorN st x y (k + 1)

/-- Tree-shaped store: some depth measure strictly decreases from child
to parent and is bounded by the store size.  Every store whose parent
links form a finite tree admits such a measure (take the actual node
depth, which is smaller than the node count). -/
def WFStore (st : Store) : Prop :=
  ∃ depth : String → Nat,
    (∀ m ∈ st, ∀ p ∈ st, m.parentId = some p.id → depth p.id < depth m.id) ∧
    (∀ m ∈ st, depth m.id ≤ st.length)

/-- Helper for concrete stores: a folder node with zero timestamps. -/
def mkFolder (id name : String) (parentId : Option String) : FileNode :=
  { id := id, name := name, type := NodeType.folder, parentId := parentId
  , content := none, createdAt := 0, updatedAt := 0 }

/-- Concrete tree store with root, folder `/a` and subfolder `/a/b`. -/
def sampleTreeAB : Store :=
  [mkFolder "root" "/" none, mkFolder "a" "a" (some "root"), mkFolder "b" "b" (some "a")]

/-- Concrete store containing a healthy root plus a two-node parent
cycle (`a.parentId = "b"`, `b.parentId = "a"`) that is not reachable
from the root by child edges. -/
def sampleCycleStore : Store :=
  [mkFolder "root" "/" none, mkFolder "a" "a" (some "b"), mkFolder "b" "b" (some "a")]

/-- Concrete store with root and the folder `/home`. -/
def sampleHomeStore : Store :=
  [mkFolder "root" "/" none, mkFolder "home" "home" (some "root")]



/-- Characters printed by the decimal printer are decimal digits, hence
never the dash separator. -/
theorem natDigitsAux_ne_dash (fuel n : Nat) :
    ∀ c ∈ natDigitsAux fuel n, c ≠ '-' := by
  induction fuel generalizing n with
  | zero => intro c hc; simp [natDigitsAux] at hc
  | succ fuel ih =>
    intro c hc
    by_cases h : n < 10
    · simp [natDigitsAux, h] at hc
      subst hc
      have : ∀ m, m < 10 → Nat.digitChar m ≠ '-' := by decide
      exact this n h
    · simp [natDigitsAux, h] at hc
      rcases hc with hc | hc
      · exact ih _ c hc
      · subst hc
        have : ∀ m, m < 10 → Nat.digitChar m ≠ '-' := by decide
        exact this _ (Nat.mod_lt _ (by omega))

theorem decDigits_append_singleton (l : List Char) (c : Char) :
    decDigits (l ++ [c]) = 10 * decDigits l + charVal c := by
  simp [decDigits, List.foldl_append]

/-- Decoding the decimal printer recovers the number (for adequate
fuel). -/
theorem decDigits_natDigitsAux : ∀ fuel n, n < fuel → decDigits (natDigitsAux fuel n) = n := by
  intro fuel
  induction fuel with
  | zero => intro n h; omega
  | succ fuel ih =>
    intro n h
    by_cases h10 : n < 10
    · have hv : ∀ m, m < 10 → charVal (Nat.digitChar m) = m := by decide
      simp [natDigitsAux, h10, decDigits, hv n h10]
    · have hlt : n / 10 < fuel := by
        have h1 : n / 10 < n := Nat.div_lt_self (by omega) (by omega)
        omega
      simp [natDigitsAux, h10, decDigits_append_singleton, ih _ hlt]
      have hv : ∀ m, m < 10 → charVal (Nat.digitChar m) = m := by decide
      rw [hv _ (Nat.mod_lt _ (by omega))]
      omega

theorem takeWhile_append_of_all {p : Char → Bool} (a : List Char) (b : Char) (r : List Char)
    (ha : ∀ c ∈ a, p c = true) (hb : p b = false) :
    (a ++ b :: r).takeWhile p = a := by
  induction a with
  | nil => simp [List.takeWhile, hb]
  | cons x xs ih =>
    have hx : p x = true := ha x (by simp)
    simp [List.takeWhile, hx]
    exact ih fun c hc => ha c (by simp [hc])

theorem lastSeg_append (xs ds : List Char) (h : ∀ c ∈ ds, c ≠ '-') :
    lastSeg (xs ++ '-' :: ds) = ds := by
  unfold lastSeg
  rw [List.reverse_append]
  have : ('-' :: ds).reverse = ds.reverse ++ ['-'] := by simp
  rw [this, List.append_assoc, List.singleton_append]
  rw [takeWhile_append_of_all ds.reverse '-' xs.reverse]
  · simp
  · intro c hc
    have := h c (List.mem_reverse.mp hc)
    simpa using this
  · simp

theorem seqOf_mkWindowId (appId : String) (now seq : Nat) :
    seqOf (mkWindowId appId now seq) = seq := by
  unfold seqOf mkWindowId natRepr
  have hdata : (appId ++ "-" ++ String.mk (natDigitsAux (now + 1) now) ++ "-"
      ++ String.mk (natDigitsAux (seq + 1) seq)).data
      = (appId.data ++ '-' :: natDigitsAux (now + 1) now) ++ '-'
        :: natDigitsAux (seq + 1) seq := by
    simp [String.data_append]
  rw [hdata, lastSeg_append _ _ (natDigitsAux_ne_dash _ _)]
  exact decDigits_natDigitsAux _ _ (Nat.lt_succ_self _)

theorem mkWindowId_ne_of_seq_ne (a1 a2 : String) (t1 t2 s1 s2 : Nat) (h : s1 ≠ s2) :
    mkWindowId a1 t1 s1 ≠ mkWindowId a2 t2 s2 := by
  intro he
  apply h
  have := congrArg seqOf he
  rwa [seqOf_mkWindowId, seqOf_mkWindowId] at this

theorem map_update_id_eq (l : List WindowInstance) (wid : String)
    (g : WindowInstance → WindowInstance) (hg : ∀ w, (g w).id = w.id) :
    ((l.map fun w => if w.id = wid then g w else w).map fun w => w.id)
      = l.map fun w => w.id := by
  rw [List.map_map]
  apply List.map_congr_left
  intro w _
  by_cases h : w.id = wid <;> simp [h, hg]

theorem filter_map_eq_length_le (l : List WindowInstance) (b : String)
    (h : (l.map fun w => w.id).Nodup) :
    (l.filter fun w => w.id = b).length ≤ 1 := by
  induction l with
  | nil => simp
  | cons x xs ih =>
    simp only [List.map_cons, List.nodup_cons] at h
    by_cases hx : x.id = b
    · have hnil : xs.filter (fun w => w.id = b) = [] := by
        rw [List.filter_eq_nil_iff]
        intro y hy
        simp only [decide_eq_true_eq]
        intro hyb
        exact h.1 (by rw [← hx] at hyb; exact hyb ▸ List.mem_map_of_mem _ hy)
      simp [List.filter_cons, hx, hnil]
    · simp only [List.filter_cons, hx]
      simpa using ih h.2

theorem fullInv_boot (s : OSState) (h : FullInv s) : FullInv (boot s) := h

theorem fullInv_storeRegisterApp (s : OSState) (app : AppDefinition) (h : FullInv s) :
    FullInv (storeRegisterApp s app) := by
  unfold storeRegisterApp
  by_cases hc : (List.any s.registeredApps fun a => a.id = app.id) = true <;>
    simp only [hc, if_true, if_false, Bool.false_eq_true] <;> exact h

theorem fullInv_clearFocus (s : OSState) (h : FullInv s) : FullInv (clearFocus s) := by
  obtain ⟨h1, h2, h3, h4⟩ := h
  exact ⟨h1, h2, by intro fid hfid; simp [clearFocus] at hfid, h4⟩

theorem forall_mem_map_update {P : WindowInstance → Prop} (l : List WindowInstance)
    (wid : String) (g : WindowInstance → WindowInstance)
    (h : ∀ w ∈ l, P w) (hg : ∀ w ∈ l, P (g w)) :
    ∀ w' ∈ l.map fun w => if w.id = wid then g w else w, P w' := by
  intro w' hw'
  obtain ⟨w, hw, hww⟩ := List.mem_map.mp hw'
  by_cases hc : w.id = wid
  · rw [← hww, if_pos hc]; exact hg w hw
  · rw [← hww, if_neg hc]; exact h w hw

theorem exists_in_map_update (l : List WindowInstance) (wid : String)
    (g : WindowInstance → WindowInstance) (hgid : ∀ w, (g w).id = w.id)
    (w : WindowInstance) (hw : w ∈ l) :
    ∃ w' ∈ l.map fun v => if v.id = wid then g v else v, w'.id = w.id := by
  refine ⟨if w.id = wid then g w else w, List.mem_map_of_mem _ hw, ?_⟩
  by_cases hc : w.id = wid
  · rw [if_pos hc, hgid]
  · rw [if_neg hc]

theorem fullInv_openApp (reg : Registry) (s : OSState) (appId : String) (now : Nat)
    (vp : Option Viewport) (h : FullInv s) : FullInv (openApp reg s appId now vp) := by
  obtain ⟨h1, h2, h3, h4⟩ := h
  unfold openApp
  cases hA : getAppById reg appId with
  | none => exact ⟨h1, h2, h3, h4⟩
  | some app =>
    simp only
    constructor
    · -- distinct ids: the new id carries a strictly larger seq component
      unfold IdsNodup
      simp only [List.map_append, List.map_cons, List.map_nil]
      rw [List.nodup_append]
      refine ⟨h1, by simp, ?_⟩
      intro a ha hb
      simp only [List.mem_singleton] at hb
      subst hb
      obtain ⟨w, hw, hwid⟩ := List.mem_map.mp ha
      have hle := h2 w hw
      rw [hwid, seqOf_mkWindowId] at hle
      omega
    constructor
    · -- seq bound
      intro w hw
      simp only [List.mem_append, List.mem_singleton] at hw
      rcases hw with hw | hw
      · exact Nat.le_succ_of_le (h2 w hw)
      · subst hw; simp [seqOf_mkWindowId]
    constructor
    · -- focus points at the new window
      intro fid hfid
      simp only [Option.some.injEq] at hfid
      refine ⟨_, List.mem_append.mpr (Or.inr (List.mem_singleton.mpr rfl)), hfid⟩
    · -- z bound
      intro w hw
      simp only [List.mem_append, List.mem_singleton] at hw
      rcases hw with hw | hw
      · exact Nat.le_succ_of_le (h4 w hw)
      · subst hw; simp

theorem fullInv_closeWindow (s : OSState) (wid : String) (h : FullInv s) :
    FullInv (closeWindow s wid) := by
  obtain ⟨h1, h2, h3, h4⟩ := h
  have hsub : (s.openWindows.filter fun w => ¬ (w.id = wid)).Sublist s.openWindows :=
    List.filter_sublist _
  refine ⟨?_, ?_, ?_, ?_⟩
  · exact (hsub.map _).nodup h1
  · intro w hw
    exact h2 w (hsub.mem hw)
  · intro fid hfid
    simp only [closeWindow] at hfid
    by_cases hc : s.focusedWindowId = some wid
    · simp [hc] at hfid
    · rw [if_neg hc] at hfid
      obtain ⟨w, hw, hwid⟩ := h3 fid hfid
      refine ⟨w, ?_, hwid⟩
      apply List.mem_filter_of_mem hw
      simp only [decide_eq_true_eq]
      intro hww
      apply hc
      rw [hfid, ← hwid, hww]
  · intro w hw
    exact h4 w (hsub.mem hw)

theorem nodup_map_update (l : List WindowInstance) (wid : String)
    (g : WindowInstance → WindowInstance) (hg : ∀ w, (g w).id = w.id)
    (h : (l.map fun w => w.id).Nodup) :
    ((l.map fun w => if w.id = wid then g w else w).map fun w => w.id).Nodup := by
  rw [map_update_id_eq l wid g hg]
  exact h

theorem fullInv_focusWindow (s : OSState) (wid : String)
    (hex : ∃ w ∈ s.openWindows, w.id = wid) (h : FullInv s) :
    FullInv (focusWindow s wid) := by
  obtain ⟨h1, h2, h3, h4⟩ := h
  refine ⟨?_, ?_, ?_, ?_⟩
  · exact nodup_map_update s.openWindows wid
      (fun w => { w with zIndex := s.zIndexCounter + 1, isMinimized := false })
      (fun w => rfl) h1
  · intro w' hw'
    exact forall_mem_map_update (P := fun w => seqOf w.id ≤ s.nextWindowSeq)
      s.openWindows wid
      (fun w => { w with zIndex := s.zIndexCounter + 1, isMinimized := false })
      h2 (fun w hw => h2 w hw) w' hw'
  · intro fid hfid
    have hfid2 : some wid = some fid := hfid
    obtain ⟨w, hw, hwid⟩ := hex
    obtain ⟨w', hw', hid⟩ := exists_in_map_update s.openWindows wid
      (fun w => { w with zIndex := s.zIndexCounter + 1, isMinimized := false })
      (fun w => rfl) w hw
    refine ⟨w', hw', ?_⟩
    rw [hid, hwid]
    exact Option.some.inj hfid2
  · intro w' hw'
    exact forall_mem_map_update (P := fun w => w.zIndex ≤ s.zIndexCounter + 1)
      s.openWindows wid
      (fun w => { w with zIndex := s.zIndexCounter + 1, isMinimized := false })
      (fun w hw => Nat.le_succ_of_le (h4 w hw)) (fun w _ => Nat.le_refl _) w' hw'

theorem fullInv_minimizeWindow (s : OSState) (wid : String) (h : FullInv s) :
    FullInv (minimizeWindow s wid) := by
  obtain ⟨h1, h2, h3, h4⟩ := h
  refine ⟨?_, ?_, ?_, ?_⟩
  · exact nodup_map_update s.openWindows wid (fun w => { w with isMinimized := true })
      (fun w => rfl) h1
  · intro w' hw'
    exact forall_mem_map_update (P := fun w => seqOf w.id ≤ s.nextWindowSeq)
      s.openWindows wid (fun w => { w with isMinimized := true })
      h2 (fun w hw => h2 w hw) w' hw'
  · intro fid hfid
    have hfid2 : (if s.focusedWindowId = some wid then none else s.focusedWindowId)
        = some fid := hfid
    by_cases hc : s.focusedWindowId = some wid
    · rw [if_pos hc] at hfid2; exact absurd hfid2 (by simp)
    · rw [if_neg hc] at hfid2
      obtain ⟨w, hw, hwid⟩ := h3 fid hfid2
      obtain ⟨w', hw', hid⟩ := exists_in_map_update s.openWindows wid
        (fun w => { w with isMinimized := true }) (fun w => rfl) w hw
      exact ⟨w', hw', by rw [hid, hwid]⟩
  · intro w' hw'
    exact forall_mem_map_update (P := fun w => w.zIndex ≤ s.zIndexCounter)
      s.openWindows wid (fun w => { w with isMinimized := true })
      h4 (fun w hw => h4 w hw) w' hw'

theorem fullInv_toggleMaximizeWindow (s : OSState) (wid : String) (h : FullInv s) :
    FullInv (toggleMaximizeWindow s wid) := by
  obtain ⟨h1, h2, h3, h4⟩ := h
  refine ⟨?_, ?_, ?_, ?_⟩
  · exact nodup_map_update s.openWindows wid
      (fun w => { w with isMaximized := ¬ w.isMaximized }) (fun w => rfl) h1
  · intro w' hw'
    exact forall_mem_map_update (P := fun w => seqOf w.id ≤ s.nextWindowSeq)
      s.openWindows wid (fun w => { w with isMaximized := ¬ w.isMaximized })
      h2 (fun w hw => h2 w hw) w' hw'
  · intro fid hfid
    have hfid2 : s.focusedWindowId = some fid := hfid
    obtain ⟨w, hw, hwid⟩ := h3 fid hfid2
    obtain ⟨w', hw', hid⟩ := exists_in_map_update s.openWindows wid
      (fun w => { w with isMaximized := ¬ w.isMaximized }) (fun w => rfl) w hw
    exact ⟨w', hw', by rw [hid, hwid]⟩
  · intro w' hw'
    exact forall_mem_map_update (P := fun w => w.zIndex ≤ s.zIndexCounter)
      s.openWindows wid (fun w => { w with isMaximized := ¬ w.isMaximized })
      h4 (fun w hw => h4 w hw) w' hw'

theorem fullInv_posShape (s : OSState) (wid : String) (P : WindowPosition) (h : FullInv s) :
    FullInv { s with openWindows :=
        s.openWindows.map fun w => if w.id = wid then { w with position := P } else w } := by
  obtain ⟨h1, h2, h3, h4⟩ := h
  refine ⟨?_, ?_, ?_, ?_⟩
  · exact nodup_map_update s.openWindows wid (fun w => { w with position := P })
      (fun w => rfl) h1
  · intro w' hw'
    exact forall_mem_map_update (P := fun w => seqOf w.id ≤ s.nextWindowSeq)
      s.openWindows wid (fun w => { w with position := P })
      h2 (fun w hw => h2 w hw) w' hw'
  · intro fid hfid
    have hfid2 : s.focusedWindowId = some fid := hfid
    obtain ⟨w, hw, hwid⟩ := h3 fid hfid2
    obtain ⟨w', hw', hid⟩ := exists_in_map_update s.openWindows wid
      (fun w => { w with position := P }) (fun w => rfl) w hw
    exact ⟨w', hw', by rw [hid, hwid]⟩
  · intro w' hw'
    exact forall_mem_map_update (P := fun w => w.zIndex ≤ s.zIndexCounter)
      s.openWindows wid (fun w => { w with position := P })
      h4 (fun w hw => h4 w hw) w' hw'

theorem fullInv_updateWindowPosition (s : OSState) (wid : String) (pos : WindowPosition)
    (vp : Option Viewport) (h : FullInv s) : FullInv (updateWindowPosition s wid pos vp) :=
  fullInv_posShape s wid _ h

theorem fullInv_updateWindowSize (s : OSState) (wid : String) (sz : WindowSize)
    (h : FullInv s) : FullInv (updateWindowSize s wid sz) := by
  obtain ⟨h1, h2, h3, h4⟩ := h
  refine ⟨?_, ?_, ?_, ?_⟩
  · exact nodup_map_update s.openWindows wid (fun w => { w with size := sz })
      (fun w => rfl) h1
  · intro w' hw'
    exact forall_mem_map_update (P := fun w => seqOf w.id ≤ s.nextWindowSeq)
      s.openWindows wid (fun w => { w with size := sz })
      h2 (fun w hw => h2 w hw) w' hw'
  · intro fid hfid
    have hfid2 : s.focusedWindowId = some fid := hfid
    obtain ⟨w, hw, hwid⟩ := h3 fid hfid2
    obtain ⟨w', hw', hid⟩ := exists_in_map_update s.openWindows wid
      (fun w => { w with size := sz }) (fun w => rfl) w hw
    exact ⟨w', hw', by rw [hid, hwid]⟩
  · intro w' hw'
    exact forall_mem_map_update (P := fun w => w.zIndex ≤ s.zIndexCounter)
      s.openWindows wid (fun w => { w with size := sz })
      h4 (fun w hw => h4 w hw) w' hw'

theorem fullInv_initial : FullInv initialOSState := by
  refine ⟨?_, ?_, ?_, ?_⟩ <;> simp [IdsNodup, SeqBound, FocusValid, ZBound, initialOSState]

theorem fullInv_of_reachableGood (reg : Registry) (s : OSState)
    (h : ReachableGoodOS reg s) : FullInv s := by
  induction h with
  | init => exact fullInv_initial
  | step_boot s _ ih => exact fullInv_boot s ih
  | step_register s app _ ih => exact fullInv_storeRegisterApp s app ih
  | step_open s appId now vp _ ih => exact fullInv_openApp reg s appId now vp ih
  | step_close s wid _ ih => exact fullInv_closeWindow s wid ih
  | step_focus s wid _ hex ih => exact fullInv_focusWindow s wid hex ih
  | step_min s wid _ ih => exact fullInv_minimizeWindow s wid ih
  | step_max s wid _ ih => exact fullInv_toggleMaximizeWindow s wid ih
  | step_pos s wid pos vp _ ih => exact fullInv_updateWindowPosition s wid pos vp ih
  | step_size s wid sz _ ih => exact fullInv_updateWindowSize s wid sz ih
  | step_clear s _ ih => exact fullInv_clearFocus s ih

theorem kernelInv_of_fullInv (s : OSState) (h : FullInv s) : KernelInv s := by
  obtain ⟨h1, _, h3, h4⟩ := h
  refine ⟨?_, h3, h4⟩
  unfold focusedWindows
  cases hf : s.focusedWindowId with
  | none => simp [hf]
  | some fid =>
    have heq : (s.openWindows.filter fun w => some fid = some w.id)
        = s.openWindows.filter fun w => w.id = fid := by
      apply List.filter_congr
      intro w _
      simp [eq_comm]
    rw [heq]
    exact filter_map_eq_length_le s.openWindows fid h1

theorem mem_of_getById (st : Store) (id : String) (n : FileNode)
    (h : getById st id = some n) : n ∈ st ∧ n.id = id := by
  unfold getById at h
  refine ⟨List.mem_of_find?_eq_some h, ?_⟩
  have := List.find?_some h
  simpa using this

theorem isAncestorN_le_depth (st : Store) (depth : String → Nat)
    (hdec : ∀ m ∈ st, ∀ p ∈ st, m.parentId = some p.id → depth p.id < depth m.id) :
    ∀ x y k, IsAncestorN st x y k → x ∈ st → k ≤ depth x.id := by
  intro x y k h
  induction h with
  | refl x => intro _; exact Nat.zero_le _
  | step x p y k pid hpar hget _ ih =>
    intro hx
    obtain ⟨hp, hpid⟩ := mem_of_getById st pid p hget
    have hlt := hdec x hx p hp (by rw [hpar, hpid])
    have hk := ih hp
    omega

theorem isAncestorN_bound (st : Store) (x y : FileNode) (k : Nat)
    (hwf : WFStore st) (hx : x ∈ st) (h : IsAncestorN st x y k) : k ≤ st.length := by
  obtain ⟨depth, hdec, hbound⟩ := hwf
  exact le_trans (isAncestorN_le_depth st depth hdec x y k h hx) (hbound x hx)

theorem ancestorGuard_of_isAncestorN (st : Store) (x y : FileNode) (k : Nat)
    (h : IsAncestorN st x y k) :
    ∀ fuel, k < fuel → ancestorGuard st y.id fuel (some x) = true := by
  induction h with
  | refl x =>
    intro fuel hf
    match fuel, hf with
    | f + 1, _ => simp [ancestorGuard]
  | step x p y k pid hpar hget _ ih =>
    intro fuel hf
    match fuel, hf with
    | f + 1, hf =>
      by_cases hxy : x.id = y.id
      · simp [ancestorGuard, hxy]
      · simp only [ancestorGuard, hxy, if_false, if_neg hxy]
        rw [hpar]
        show ancestorGuard st y.id f (getById st pid) = true
        rw [hget]
        exact ih f (by omega)

theorem find?_append_of_some {α : Type} (p : α → Bool) (l1 l2 : List α) (a : α)
    (h : l1.find? p = some a) : (l1 ++ l2).find? p = some a := by
  induction l1 with
  | nil => simp [List.find?] at h
  | cons x xs ih =>
    cases hx : p x with
    | true => simp [List.find?, hx] at h ⊢; exact h
    | false =>
      simp only [List.find?, hx] at h
      simp only [List.cons_append, List.find?, hx]
      exact ih h

theorem find?_append_of_none {α : Type} (p : α → Bool) (l1 l2 : List α)
    (h : l1.find? p = none) : (l1 ++ l2).find? p = l2.find? p := by
  induction l1 with
  | nil => simp
  | cons x xs ih =>
    cases hx : p x with
    | true => simp [List.find?, hx] at h
    | false =>
      simp only [List.find?, hx] at h
      simp only [List.cons_append, List.find?, hx]
      exact ih h

theorem getChildrenOf_append (st : Store) (x : FileNode) (cur : String) :
    getChildrenOf (st ++ [x]) cur
      = getChildrenOf st cur ++ (if x.parentId = some cur then [x] else []) := by
  unfold getChildrenOf
  rw [List.filter_append]
  by_cases hc : x.parentId = some cur <;> simp [hc]

theorem walkSegs_append_of_some (st : Store) (x : FileNode) :
    ∀ (segs : List String) (cur lid : String), walkSegs st cur segs = some lid →
      walkSegs (st ++ [x]) cur segs = some lid := by
  intro segs
  induction segs with
  | nil => intro cur lid h; exact h
  | cons seg rest ih =>
    intro cur lid h
    simp only [walkSegs] at h ⊢
    cases hf : (getChildrenOf st cur).find? (fun c => c.name = seg) with
    | none => rw [hf] at h; cases h
    | some m =>
      rw [hf] at h
      rw [getChildrenOf_append]
      rw [find?_append_of_some _ _ _ _ hf]
      exact ih m.id lid h

theorem getById_append_of_fresh (st : Store) (x : FileNode) (i : String)
    (h : getById st i = none) : getById (st ++ [x]) i = getById [x] i := by
  unfold getById at h ⊢
  exact find?_append_of_none _ _ _ h

theorem putNode_of_fresh (st : Store) (n : FileNode) (h : ∀ m ∈ st, ¬ (m.id = n.id)) :
    putNode st n = st ++ [n] := by
  unfold putNode
  rw [if_neg]
  simp only [List.any_eq_true, decide_eq_true_eq]
  rintro ⟨m, hm, hmid⟩
  exact h m hm hmid

theorem putNode_of_mem (st : Store) (n : FileNode) (m : FileNode) (hm : m ∈ st)
    (hmid : m.id = n.id) : putNode st n = st.map fun v => if v.id = n.id then n else v := by
  unfold putNode
  rw [if_pos]
  simp only [List.any_eq_true, decide_eq_true_eq]
  exact ⟨m, hm, hmid⟩

theorem getChildrenOf_map_replace (st : Store) (node node' : FileNode)
    (hpar : node'.parentId = node.parentId)
    (hsame : ∀ n ∈ st, n.id = node.id → n = node) (cur : String) :
    getChildrenOf (st.map fun n => if n.id = node.id then node' else n) cur
      = (getChildrenOf st cur).map fun n => if n.id = node.id then node' else n := by
  unfold getChildrenOf
  induction st with
  | nil => rfl
  | cons x xs ih =>
    have hsx : ∀ n ∈ xs, n.id = node.id → n = node := fun n hn => hsame n (by simp [hn])
    by_cases hc : x.id = node.id
    · have hx : x = node := hsame x (by simp) hc
      simp only [List.map_cons, if_pos hc, List.filter_cons]
      by_cases hp : x.parentId = some cur
      · rw [if_pos (by simp [hpar, ← hx, hp]), if_pos (by simp [hp])]
        simp only [List.map_cons, if_pos hc]
        rw [ih hsx]
      · rw [if_neg (by simp [hpar, ← hx]; exact hp), if_neg (by simp [hp])]
        exact ih hsx
    · simp only [List.map_cons, if_neg hc, List.filter_cons]
      by_cases hp : x.parentId = some cur
      · rw [if_pos (by simp [hp]), if_pos (by simp [hp])]
        simp only [List.map_cons, if_neg hc]
        rw [ih hsx]
      · rw [if_neg (by simp [hp]), if_neg (by simp [hp])]
        exact ih hsx

theorem find?_name_map_replace (l : List FileNode) (node node' : FileNode) (seg : String)
    (hname : node'.name = node.name)
    (hsame : ∀ n ∈ l, n.id = node.id → n = node) :
    ((l.map fun n => if n.id = node.id then node' else n).find? fun c => c.name = seg)
      = (l.find? fun c => c.name = seg).map fun n => if n.id = node.id then node' else n := by
  induction l with
  | nil => rfl
  | cons x xs ih =>
    have hsx : ∀ n ∈ xs, n.id = node.id → n = node := fun n hn => hsame n (by simp [hn])
    have hpx : (if x.id = node.id then node' else x).name = x.name := by
      by_cases hc : x.id = node.id
      · rw [if_pos hc, hname, hsame x (by simp) hc]
      · rw [if_neg hc]
    simp only [List.map_cons, List.find?]
    rw [hpx]
    cases hp : (decide (x.name = seg)) with
    | true => simp
    | false => exact ih hsx

theorem walkSegs_map_replace (st : Store) (node node' : FileNode)
    (hid : node'.id = node.id) (hname : node'.name = node.name)
    (hpar : node'.parentId = node.parentId)
    (hsame : ∀ n ∈ st, n.id = node.id → n = node) :
    ∀ (segs : List String) (cur : String),
      walkSegs (st.map fun n => if n.id = node.id then node' else n) cur segs
        = walkSegs st cur segs := by
  intro segs
  induction segs with
  | nil => intro cur; rfl
  | cons seg rest ih =>
    intro cur
    simp only [walkSegs]
    rw [getChildrenOf_map_replace st node node' hpar hsame cur]
    have hsub : ∀ n ∈ getChildrenOf st cur, n.id = node.id → n = node := by
      intro n hn
      exact hsame n (List.mem_of_mem_filter hn)
    rw [find?_name_map_replace (getChildrenOf st cur) node node' seg hname hsub]
    cases hf : (getChildrenOf st cur).find? (fun c => c.name = seg) with
    | none => rfl
    | some m =>
      have hmid : (if m.id = node.id then node' else m).id = m.id := by
        by_cases hc : m.id = node.id
        · rw [if_pos hc, hid, hc]
        · rw [if_neg hc]
      show walkSegs (List.map (fun n => if n.id = node.id then node' else n) st)
          (if m.id = node.id then node' else m).id rest = walkSegs st m.id rest
      rw [hmid]
      exact ih m.id

theorem getById_map_replace (st : Store) (node node' : FileNode) (hid : node'.id = node.id)
    (i : String) :
    getById (st.map fun n => if n.id = node.id then node' else n) i
      = (getById st i).map fun n => if n.id = node.id then node' else n := by
  unfold getById
  induction st with
  | nil => rfl
  | cons x xs ih =>
    have hpi : (if x.id = node.id then node' else x).id = x.id := by
      by_cases hc : x.id = node.id
      · rw [if_pos hc, hid, hc]
      · rw [if_neg hc]
    simp only [List.map_cons, List.find?]
    rw [hpi]
    cases hp : (decide (x.id = i)) with
    | true => simp
    | false => exact ih

theorem resolveParent_facts (st : Store) (p : String) (parent : FileNode) (nm : String)
    (h : resolveParent st p = .ok (parent, nm)) :
    parent ∈ st ∧ parent.type = NodeType.folder := by
  simp only [resolveParent] at h
  cases hL : (splitPath p).getLast? with
  | none => rw [hL] at h; cases h
  | some childName =>
    rw [hL] at h
    cases hG : getNodeByPath st ("/" ++ String.intercalate "/" (splitPath p).dropLast) with
    | none => rw [hG] at h; cases h
    | some q =>
      rw [hG] at h
      have h := show (if q.type = NodeType.folder then
          (Except.ok (q, childName) : Except VfsError (FileNode × String))
        else Except.error (.typeMismatch
          ("Not a folder: " ++ ("/" ++ String.intercalate "/" (splitPath p).dropLast))))
          = Except.ok (parent, nm) from h
      by_cases ht : q.type = NodeType.folder
      · rw [if_pos ht] at h
        have hq : q = parent := by
          have := congrArg (fun e : Except VfsError (FileNode × String) =>
            match e with | .ok pr => some pr.1 | .error _ => none) h
          simpa using this
        subst hq
        refine ⟨?_, ht⟩
        have hmem : q ∈ st := by
          simp only [getNodeByPath] at hG
          by_cases he : (splitPath ("/" ++ String.intercalate "/" (splitPath p).dropLast)).isEmpty
          · rw [if_pos he] at hG
            exact (mem_of_getById st ROOT_ID q hG).1
          · rw [if_neg he] at hG
            cases hw : walkSegs st ROOT_ID
                (splitPath ("/" ++ String.intercalate "/" (splitPath p).dropLast)) with
            | none => rw [hw] at hG; cases hG
            | some lid => rw [hw] at hG; exact (mem_of_getById st lid q hG).1
        exact hmem
      · rw [if_neg ht] at h; cases h

theorem getNodeByPath_mem (st : Store) (p : String) (n : FileNode)
    (h : getNodeByPath st p = some n) : n ∈ st := by
  simp only [getNodeByPath] at h
  by_cases he : (splitPath p).isEmpty
  · rw [if_pos he] at h
    exact (mem_of_getById st ROOT_ID n h).1
  · rw [if_neg he] at h
    cases hw : walkSegs st ROOT_ID (splitPath p) with
    | none => rw [hw] at h; cases h
    | some lid => rw [hw] at h; exact (mem_of_getById st lid n h).1

theorem walkSegs_append_segs (st : Store) :
    ∀ (l1 l2 : List String) (cur : String),
      walkSegs st cur (l1 ++ l2)
        = match walkSegs st cur l1 with
          | some mid => walkSegs st mid l2
          | none => none := by
  intro l1
  induction l1 with
  | nil => intro l2 cur; rfl
  | cons seg rest ih =>
    intro l2 cur
    simp only [List.cons_append, walkSegs]
    cases hf : (getChildrenOf st cur).find? (fun c => c.name = seg) with
    | none => rfl
    | some m => exact ih l2 m.id

theorem getNodeByPath_map_replace (st : Store) (node node' : FileNode)
    (hid : node'.id = node.id) (hname : node'.name = node.name)
    (hpar : node'.parentId = node.parentId)
    (hsame : ∀ n ∈ st, n.id = node.id → n = node) (p : String)
    (hN : getNodeByPath st p = some node) :
    getNodeByPath (st.map fun n => if n.id = node.id then node' else n) p = some node' := by
  simp only [getNodeByPath] at hN ⊢
  by_cases he : (splitPath p).isEmpty
  · rw [if_pos he] at hN ⊢
    rw [getById_map_replace st node node' hid ROOT_ID, hN]
    show some (if node.id = node.id then node' else node) = some node'
    rw [if_pos rfl]
  · rw [if_neg he] at hN ⊢
    cases hw : walkSegs st ROOT_ID (splitPath p) with
    | none => rw [hw] at hN; cases hN
    | some lid =>
      rw [hw] at hN
      have hN2 : getById st lid = some node := hN
      rw [walkSegs_map_replace st node node' hid hname hpar hsame (splitPath p) ROOT_ID, hw]
      show getById (st.map fun n => if n.id = node.id then node' else n) lid = some node'
      rw [getById_map_replace st node node' hid lid, hN2]
      show some (if node.id = node.id then node' else node) = some node'
      rw [if_pos rfl]

theorem readFile_after_overwrite (st : Store) (p c : String) (now : Nat) (newId : String)
    (node : FileNode)
    (hN : getNodeByPath st p = some node) (hT : node.type = NodeType.file)
    (hsame : ∀ n ∈ st, n.id = node.id → n = node) :
    readFile (writeFile st p c now newId).2 p = .ok c := by
  have hmem : node ∈ st := getNodeByPath_mem st p node hN
  simp only [writeFile, hN]
  rw [if_pos hT]
  have hput : putNode st { node with content := some c, updatedAt := now }
      = st.map fun v => if v.id = node.id then
          { node with content := some c, updatedAt := now } else v :=
    putNode_of_mem st _ node hmem rfl
  show readFile (putNode st { node with content := some c, updatedAt := now }) p = .ok c
  rw [hput]
  have hN2 := getNodeByPath_map_replace st node
    { node with content := some c, updatedAt := now } rfl rfl rfl hsame p hN
  simp only [readFile, hN2]
  rw [if_pos (by show node.type = NodeType.file; exact hT)]
  rfl

theorem readFile_after_create (st : Store) (p c : String) (now : Nat) (newId : String)
    (segs : List String) (nm pid : String) (parent : FileNode)
    (hsegs : splitPath p = segs ++ [nm])
    (hwalk : walkSegs st ROOT_ID segs = some pid)
    (hpid : getById st pid = some parent)
    (hRP : resolveParent st p = .ok (parent, nm))
    (hnochild : ∀ ch ∈ getChildrenOf st parent.id, ¬ (ch.name = nm))
    (hfresh : ∀ m ∈ st, ¬ (m.id = newId)) :
    readFile (writeFile st p c now newId).2 p = .ok c := by
  have hparid : parent.id = pid := (mem_of_getById st pid parent hpid).2
  have hne : ((segs ++ [nm]).isEmpty) = false := by simp
  -- the path does not resolve: the final segment has no match
  have hfind : (getChildrenOf st pid).find? (fun c => c.name = nm) = none := by
    rw [List.find?_eq_none]
    intro ch hch
    have := hnochild ch (by rw [hparid]; exact hch)
    simpa using this
  have hwalkFull : walkSegs st ROOT_ID (segs ++ [nm]) = none := by
    rw [walkSegs_append_segs st segs [nm] ROOT_ID, hwalk]
    simp only [walkSegs, hfind]
  have hNone : getNodeByPath st p = none := by
    simp only [getNodeByPath, hsegs, hne, Bool.false_eq_true, if_false, hwalkFull]
  simp only [writeFile, hNone, createFile, hRP]
  rw [if_neg (by
    simp only [List.any_eq_true, decide_eq_true_eq]
    rintro ⟨s, hs, hsn⟩
    exact hnochild s hs (by simp [hsn]))]
  set newNode : FileNode :=
    { id := newId, name := nm, type := NodeType.file, parentId := some parent.id
    , content := some c, createdAt := now, updatedAt := now } with hnew
  show readFile (putNode st newNode) p = .ok c
  rw [putNode_of_fresh st newNode (by intro m hm; exact hfresh m hm)]
  have hwalk2 : walkSegs (st ++ [newNode]) ROOT_ID (segs ++ [nm]) = some newId := by
    rw [walkSegs_append_segs (st ++ [newNode]) segs [nm] ROOT_ID]
    rw [walkSegs_append_of_some st newNode segs ROOT_ID pid hwalk]
    simp only [walkSegs]
    rw [getChildrenOf_append st newNode pid]
    rw [if_pos (by show some parent.id = some pid; rw [hparid])]
    rw [find?_append_of_none _ _ _ hfind]
    simp [hnew]
  have hById : getById (st ++ [newNode]) newId = some newNode := by
    rw [getById_append_of_fresh st newNode newId (by
      unfold getById
      rw [List.find?_eq_none]
      intro m hm
      have := hfresh m hm
      simpa using this)]
    simp [getById, hnew]
  have hN2 : getNodeByPath (st ++ [newNode]) p = some newNode := by
    simp only [getNodeByPath, hsegs, hne, Bool.false_eq_true, if_false, hwalk2, hById]
  simp only [readFile, hN2]
  rw [if_pos (by simp [hnew])]
  simp [hnew]

/- ════════════════════════════════════════════════════════════════
   Claim theorems
   ════════════════════════════════════════════════════════════════ -/

theorem fullInv_foldl_openApp (reg : Registry) (calls : List (String × Nat × Option Viewport)) :
    ∀ s : OSState, FullInv s →
      FullInv (calls.foldl (fun s c => openApp reg s c.1 c.2.1 c.2.2) s) := by
  induction calls with
  | nil => intro s h; exact h
  | cons c rest ih =>
    intro s h
    exact ih (openApp reg s c.1 c.2.1 c.2.2) (fullInv_openApp reg s c.1 c.2.1 c.2.2 h)

/-- C1: for every sequence of `openApp` calls (each with an arbitrary
app id and an arbitrary wall-clock reading, so in particular with many
calls observing the same millisecond, and with or without a viewport),
starting from the initial kernel state, all resulting window ids are
pairwise distinct: the strictly increasing `nextWindowSeq` component of
the id guarantees uniqueness independently of the clock. -/
theorem c1_openApp_window_ids_unique (reg : Registry)
    (calls : List (String × Nat × Option Viewport)) :
    (((calls.foldl (fun s c => openApp reg s c.1 c.2.1 c.2.2) initialOSState).openWindows.map
      fun w => w.id).Nodup) :=
  (fullInv_foldl_openApp reg calls initialOSState fullInv_initial).1

/-- C2 counterexample: the claim "every mutating kernel operation with
an absent window id leaves the state unchanged" is false: from the
initial state (which contains no windows at all), `focusWindow "ghost"`
changes the state, setting the focused id to `"ghost"` and advancing
the z-index counter. -/
theorem c2_counterexample_focusWindow_mutates :
    ("ghost" ∉ initialOSState.openWindows.map fun w => w.id)
      ∧ focusWindow initialOSState "ghost" ≠ initialOSState := by
  refine ⟨by decide, by decide⟩

/-- C2 (amended): in every kernel state whose focused id names an open
window, the operations `closeWindow`, `minimizeWindow`,
`toggleMaximizeWindow`, `updateWindowPosition` and `updateWindowSize`
called with a window id that is not in the open-window list leave the
state unchanged; `focusWindow` with such an id, however, leaves the
window list unchanged but sets `focusedWindowId` to the given id and
increments `zIndexCounter`. -/
theorem c2_amended_unknown_id_behavior (s : OSState) (wid : String) (pos : WindowPosition)
    (vp : Option Viewport) (sz : WindowSize)
    (hfv : FocusValid s) (habs : wid ∉ s.openWindows.map fun w => w.id) :
    closeWindow s wid = s ∧ minimizeWindow s wid = s ∧ toggleMaximizeWindow s wid = s
      ∧ updateWindowPosition s wid pos vp = s ∧ updateWindowSize s wid sz = s
      ∧ focusWindow s wid
          = { s with focusedWindowId := some wid, zIndexCounter := s.zIndexCounter + 1 } := by
  have hnomatch : ∀ w ∈ s.openWindows, ¬ (w.id = wid) := by
    intro w hw h
    exact habs (h ▸ List.mem_map_of_mem _ hw)
  have hfoc : ¬ (s.focusedWindowId = some wid) := by
    intro h
    obtain ⟨w, hw, hwid⟩ := hfv wid h
    exact hnomatch w hw hwid
  have hmapid : ∀ g : WindowInstance → WindowInstance,
      (s.openWindows.map fun w => if w.id = wid then g w else w) = s.openWindows := by
    intro g
    conv_rhs => rw [← List.map_id s.openWindows]
    apply List.map_congr_left
    intro w hw
    rw [if_neg (hnomatch w hw)]
    rfl
  have hfilter : (s.openWindows.filter fun w => ¬ (w.id = wid)) = s.openWindows := by
    rw [List.filter_eq_self]
    intro w hw
    simpa using hnomatch w hw
  refine ⟨?_, ?_, ?_, ?_, ?_, ?_⟩
  · unfold closeWindow
    rw [hfilter, if_neg hfoc]
  · unfold minimizeWindow
    rw [hmapid (fun w => { w with isMinimized := true }), if_neg hfoc]
  · unfold toggleMaximizeWindow
    rw [hmapid (fun w => { w with isMaximized := ¬ w.isMaximized })]
  · unfold updateWindowPosition
    simp only [hmapid]
  · unfold updateWindowSize
    rw [hmapid (fun w => { w with size := sz })]
  · unfold focusWindow
    simp only [hmapid]

theorem c2_amended_witness :
    closeWindow initialOSState "ghost" = initialOSState
      ∧ minimizeWindow initialOSState "ghost" = initialOSState
      ∧ toggleMaximizeWindow initialOSState "ghost" = initialOSState
      ∧ updateWindowPosition initialOSState "ghost" { x := 5, y := 6 } none = initialOSState
      ∧ updateWindowSize initialOSState "ghost" { width := 7, height := 8 } = initialOSState
      ∧ focusWindow initialOSState "ghost"
          = { initialOSState with
              focusedWindowId := some "ghost"
              zIndexCounter := initialOSState.zIndexCounter + 1 } :=
  c2_amended_unknown_id_behavior initialOSState "ghost" { x := 5, y := 6 } none
    { width := 7, height := 8 }
    (by intro fid h; exact Option.noConfusion h) (by decide)

/-- C3 counterexample: the stated invariant does not hold in every
reachable state: from the initial state the single (unrestricted)
kernel action `focusWindow "ghost"` produces a reachable state whose
`focusedWindowId` is `some "ghost"` although no window with that id is
open, violating the kernel invariant. -/
theorem c3_counterexample_reachable_invariant_violation :
    ReachableOS [] (focusWindow initialOSState "ghost")
      ∧ ¬ KernelInv (focusWindow initialOSState "ghost") := by
  constructor
  · exact ReachableOS.step_focus initialOSState "ghost" ReachableOS.init
  · rintro ⟨_, hfv, _⟩
    obtain ⟨w, hw, _⟩ := hfv "ghost" rfl
    simp [focusWindow, initialOSState] at hw

/-- C3 (amended): in every kernel state reachable from the initial
state by kernel actions in which each `focusWindow` call is made with
the id of a currently open window (arbitrary ids remain allowed for
all other operations), the kernel invariant holds: at most one window
has focus, `focusedWindowId` is null or the id of an open window, and
`zIndexCounter` dominates every open window's z-index. -/
theorem c3_amended_reachable_invariant (reg : Registry) (s : OSState)
    (h : ReachableGoodOS reg s) : KernelInv s :=
  kernelInv_of_fullInv s (fullInv_of_reachableGood reg s h)

theorem c3_amended_witness :
    KernelInv (openApp
      [{ id := "pond", name := "Pond", defaultSize := { width := 600, height := 400 } }]
      initialOSState "pond" 1000 none) :=
  c3_amended_reachable_invariant _ _
    (ReachableGoodOS.step_open initialOSState "pond" 1000 none ReachableGoodOS.init)

/-- C4: the adopted `clampPosition` keeps the whole window rectangle
inside the viewport whenever the window fits (each coordinate lands in
`[0, viewport - size]`), and in any dimension where the window exceeds
the viewport the returned coordinate is 0. -/
theorem c4_clampPosition_bounds (pos : WindowPosition) (size : WindowSize) (vp : Viewport) :
    ((size.width ≤ vp.width ∧ size.height ≤ vp.height) →
      (0 ≤ (clampPosition pos size vp).x
        ∧ (clampPosition pos size vp).x + size.width ≤ vp.width
        ∧ 0 ≤ (clampPosition pos size vp).y
        ∧ (clampPosition pos size vp).y + size.height ≤ vp.height))
    ∧ (vp.width < size.width → (clampPosition pos size vp).x = 0)
    ∧ (vp.height < size.height → (clampPosition pos size vp).y = 0) := by
  unfold clampPosition
  refine ⟨?_, ?_, ?_⟩
  · rintro ⟨hw, hh⟩
    refine ⟨le_max_left _ _, ?_, le_max_left _ _, ?_⟩
    · have h1 : min pos.x (vp.width - size.width) ≤ vp.width - size.width := min_le_right _ _
      have h0 : (0 : ℚ) ≤ vp.width - size.width := by linarith
      have h2 : max 0 (min pos.x (vp.width - size.width)) ≤ vp.width - size.width :=
        max_le h0 h1
      linarith
    · have h1 : min pos.y (vp.height - size.height) ≤ vp.height - size.height := min_le_right _ _
      have h0 : (0 : ℚ) ≤ vp.height - size.height := by linarith
      have h2 : max 0 (min pos.y (vp.height - size.height)) ≤ vp.height - size.height :=
        max_le h0 h1
      linarith
  · intro h
    have h1 : min pos.x (vp.width - size.width) ≤ vp.width - size.width := min_le_right _ _
    have h2 : min pos.x (vp.width - size.width) ≤ 0 := by linarith
    exact max_eq_left h2
  · intro h
    have h1 : min pos.y (vp.height - size.height) ≤ vp.height - size.height := min_le_right _ _
    have h2 : min pos.y (vp.height - size.height) ≤ 0 := by linarith
    exact max_eq_left h2

theorem c4_clampPosition_witness :
    (0 ≤ (clampPosition { x := -50, y := 9999 } { width := 600, height := 400 }
        { width := 1024, height := 768 }).x
      ∧ (clampPosition { x := -50, y := 9999 } { width := 600, height := 400 }
          { width := 1024, height := 768 }).x + (600 : ℚ) ≤ 1024
      ∧ 0 ≤ (clampPosition { x := -50, y := 9999 } { width := 600, height := 400 }
          { width := 1024, height := 768 }).y
      ∧ (clampPosition { x := -50, y := 9999 } { width := 600, height := 400 }
          { width := 1024, height := 768 }).y + (400 : ℚ) ≤ 768)
    ∧ (clampPosition { x := 30, y := 40 } { width := 2000, height := 400 }
        { width := 1024, height := 768 }).x = 0 :=
  ⟨(c4_clampPosition_bounds { x := -50, y := 9999 } { width := 600, height := 400 }
      { width := 1024, height := 768 }).1 (by norm_num),
   (c4_clampPosition_bounds { x := 30, y := 40 } { width := 2000, height := 400 }
      { width := 1024, height := 768 }).2.1 (by norm_num)⟩

/-- C5: after `openApp` on an app id registered in the module
catalogue, from any state whose z-indices are dominated by the counter
(true of every reachable state), the new window is appended, is exactly
the focused window, and its z-index strictly exceeds that of every
previously open window; moreover, starting from the initial state
(counter 1), three consecutive `openApp "pond"` calls within the same
millisecond yield windows with z-indices 2, 3, 4, cascading spawn
x-offsets 120, 148, 176, and the third window focused. -/
theorem c5_openApp_focus_and_topmost :
    (∀ (reg : Registry) (s : OSState) (appId : String) (app : AppDefinition) (now : Nat)
        (vp : Option Viewport),
      ZBound s → getAppById reg appId = some app →
      ∃ wNew : WindowInstance,
        (openApp reg s appId now vp).openWindows = s.openWindows ++ [wNew]
          ∧ (openApp reg s appId now vp).focusedWindowId = some wNew.id
          ∧ wNew.zIndex = s.zIndexCounter + 1
          ∧ ∀ w ∈ s.openWindows, w.zIndex < wNew.zIndex)
    ∧ (let reg : Registry :=
         [{ id := "pond", name := "Pond", defaultSize := { width := 600, height := 400 } }]
       let s3 := openApp reg (openApp reg (openApp reg initialOSState "pond" 1000 none)
           "pond" 1000 none) "pond" 1000 none
       s3.openWindows.map (fun w => w.zIndex) = [2, 3, 4]
         ∧ s3.focusedWindowId = (s3.openWindows.getLast?).map (fun w => w.id)
         ∧ s3.openWindows.map (fun w => w.position.x) = [120, 148, 176]) := by
  constructor
  · intro reg s appId app now vp hz hA
    unfold openApp
    rw [hA]
    refine ⟨_, rfl, rfl, rfl, ?_⟩
    intro w hw
    exact Nat.lt_succ_of_le (hz w hw)
  · refine ⟨by decide, by decide, ?_⟩
    norm_num [openApp, getAppById, List.find?, initialOSState, getSpawnPosition,
      BASE_X, BASE_Y, CASCADE]

theorem c5_witness :
    ∃ wNew : WindowInstance,
      (openApp [{ id := "pond", name := "Pond", defaultSize := { width := 600, height := 400 } }]
          initialOSState "pond" 7 none).openWindows = initialOSState.openWindows ++ [wNew]
        ∧ (openApp
            [{ id := "pond", name := "Pond", defaultSize := { width := 600, height := 400 } }]
            initialOSState "pond" 7 none).focusedWindowId = some wNew.id
        ∧ wNew.zIndex = initialOSState.zIndexCounter + 1
        ∧ ∀ w ∈ initialOSState.openWindows, w.zIndex < wNew.zIndex :=
  c5_openApp_focus_and_topmost.1
    [{ id := "pond", name := "Pond", defaultSize := { width := 600, height := 400 } }]
    initialOSState "pond"
    { id := "pond", name := "Pond", defaultSize := { width := 600, height := 400 } }
    7 none (by intro w hw; simp [initialOSState] at hw) (by decide)

/-- C6: on a tree-shaped store, `moveNode` whose destination parent is
the moved folder itself or one of its descendants (the moved node
resolving from the source path, the destination parent from the
destination path) fails with an invalid-operation error and returns the
store completely unchanged: the ancestor walk rejects before anything
is written. -/
theorem c6_moveNode_rejects_cycle (st : Store) (srcPath dstPath : String) (now : Nat)
    (n dstParent : FileNode) (newName : String) (k : Nat)
    (hwf : WFStore st)
    (hsrc : getNodeByPath st srcPath = some n)
    (hfolder : n.type = NodeType.folder)
    (hdst : resolveParent st dstPath = .ok (dstParent, newName))
    (hanc : IsAncestorN st dstParent n k) :
    (moveNode st srcPath dstPath now).2 = st
      ∧ ∃ msg, (moveNode st srcPath dstPath now).1
          = .error (.invalidOperation msg) := by
  simp only [moveNode, hsrc]
  by_cases hroot : n.id = ROOT_ID
  · rw [if_pos hroot]
    exact ⟨rfl, "Cannot move root", rfl⟩
  · rw [if_neg hroot]
    simp only [hdst]
    have hmem : dstParent ∈ st := (resolveParent_facts st dstPath dstParent newName hdst).1
    have hk : k ≤ st.length := isAncestorN_bound st dstParent n k hwf hmem hanc
    have hguard : ancestorGuard st n.id (st.length + 1) (some dstParent) = true :=
      ancestorGuard_of_isAncestorN st dstParent n k hanc (st.length + 1) (by omega)
    rw [if_pos ⟨hfolder, hguard⟩]
    exact ⟨rfl, "Cannot move a folder into itself or its own descendant", rfl⟩

theorem c6_witness :
    (moveNode sampleTreeAB "/a" "/a/b" 9).2 = sampleTreeAB
      ∧ ∃ msg, (moveNode sampleTreeAB "/a" "/a/b" 9).1 = .error (.invalidOperation msg) :=
  c6_moveNode_rejects_cycle sampleTreeAB "/a" "/a/b" 9
    (mkFolder "a" "a" (some "root")) (mkFolder "a" "a" (some "root")) "b" 0
    ⟨fun i => if i = "root" then 0 else if i = "a" then 1 else 2, by decide, by decide⟩
    (by decide) (by decide) (by rfl)
    (IsAncestorN.refl _)

/-- C7: the claim is refuted on the code: `detectAndFixCycles` sweeps
only the subtree reachable from the root via child edges, so the
detached parent cycle between `a` and `b` is never visited; the sweep
(and hence `initFileSystem` on this existing store) returns the store
verbatim, and afterwards `a` is still its own ancestor via a two-step
parent chain, contradicting the claim that every cycle node is
reparented to root. -/
theorem c7_cycle_sweep_misses_detached_cycle :
    detectAndFixCycles sampleCycleStore = sampleCycleStore
      ∧ initFileSystem sampleCycleStore 5 "i1" "i2" "i3" "i4" "i5" = sampleCycleStore
      ∧ IsAncestorN sampleCycleStore (mkFolder "a" "a" (some "b"))
          (mkFolder "a" "a" (some "b")) 2 := by
  refine ⟨by decide, by decide, ?_⟩
  exact IsAncestorN.step _ _ _ _ "b" rfl rfl
    (IsAncestorN.step _ _ _ _ "a" rfl rfl (IsAncestorN.refl _))

/-- C8 counterexample: the claim quantifies over every path whose
parent folder exists, but when a folder already sits at the path,
`writeFile` fails with a type-mismatch error instead of writing, and
the follow-up `readFile` does not return the written content: the
round trip fails at `/home` even though its parent (the root) exists. -/
theorem c8_counterexample_folder_at_path :
    (∃ pr, resolveParent sampleHomeStore "/home" = Except.ok pr)
      ∧ readFile (writeFile sampleHomeStore "/home" "x" 7 "fresh1").2 "/home"
          ≠ Except.ok "x" := by
  refine ⟨⟨(mkFolder "root" "/" none, "home"), by rfl⟩, ?_⟩
  intro h
  exact Except.noConfusion h

/-- C8 (amended): `writeFile(p, c)` followed by `readFile(p)` returns
exactly `c` for every path `p` whose parent folder exists and at which
no folder sits, in both remaining situations: a file already exists at
`p` (and its id determines it uniquely in the store), or nothing exists
at `p` (no child of the parent carries the final name) and the id
generated for the new file is fresh. -/
theorem c8_amended_write_read_roundtrip (st : Store) (p c : String) (now : Nat)
    (newId : String)
    (h : (∃ node, getNodeByPath st p = some node ∧ node.type = NodeType.file
            ∧ (∀ m ∈ st, m.id = node.id → m = node))
      ∨ (∃ segs nm pid parent, splitPath p = segs ++ [nm]
            ∧ walkSegs st ROOT_ID segs = some pid
            ∧ getById st pid = some parent
            ∧ resolveParent st p = Except.ok (parent, nm)
            ∧ (∀ ch ∈ getChildrenOf st parent.id, ¬ (ch.name = nm))
            ∧ (∀ m ∈ st, ¬ (m.id = newId)))) :
    readFile (writeFile st p c now newId).2 p = Except.ok c := by
  rcases h with ⟨node, hN, hT, hsame⟩ | ⟨segs, nm, pid, parent, h1, h2, h3, h4, h5, h6⟩
  · exact readFile_after_overwrite st p c now newId node hN hT hsame
  · exact readFile_after_create st p c now newId segs nm pid parent h1 h2 h3 h4 h5 h6

theorem c8_witness :
    readFile (writeFile sampleHomeStore "/home/a.txt" "hi" 3 "f9").2 "/home/a.txt"
      = Except.ok "hi" :=
  c8_amended_write_read_roundtrip sampleHomeStore "/home/a.txt" "hi" 3 "f9"
    (Or.inr ⟨["home"], "a.txt", "home", mkFolder "home" "home" (some "root"),
      by decide, by decide, by decide, by rfl, by decide, by decide⟩)

/-- C10: `openApp` resolves apps through the module-level registry
(`getAppById`), not through the kernel state's `registeredApps` list:
when the module registry has no entry for the id, `openApp` is a
complete no-op (no window created, no state change), even when an app
definition with that id was added to the store via its `registerApp`
action. -/
theorem c10_openApp_ignores_store_registry (reg : Registry) (s : OSState) (appId : String)
    (now : Nat) (vp : Option Viewport)
    (habs : ∀ a ∈ reg, ¬ (a.id = appId))
    (hstore : ∃ a ∈ s.registeredApps, a.id = appId) :
    openApp reg s appId now vp = s := by
  unfold openApp
  have hA : getAppById reg appId = none := by
    unfold getAppById
    rw [List.find?_eq_none]
    intro a ha
    simpa using habs a ha
  rw [hA]

theorem c10_witness :
    openApp [] (storeRegisterApp initialOSState
        { id := "pond", name := "Pond", defaultSize := { width := 600, height := 400 } })
      "pond" 4 none
      = storeRegisterApp initialOSState
          { id := "pond", name := "Pond", defaultSize := { width := 600, height := 400 } } :=
  c10_openApp_ignores_store_registry [] _ "pond" 4 none
    (by intro a ha; simp at ha)
    ⟨{ id := "pond", name := "Pond", defaultSize := { width := 600, height := 400 } },
      by decide, by decide⟩
